import Mathlib

/-!
Shallow embedding of the capto snapshot builder:

* `FileContentReader.getFileContent` (src/unnamed/part_000, lines 25-70) as
  `Capto.getFileContent`, over an `IOFile` record of the observable results of
  the external calls the function makes (`isBinaryFileSync`, `fs.readFileSync`,
  `chardet.detect`, `iconv.decode`); a thrown exception is an `Except.error`.
* `HTMLToPDFGenerator._generateTextFileHTML` (src/unnamed/part_005, lines
  326-370) as `Capto.generateTextFileHTML`.
* `IgnoreRulesManager` and `FileCollector` (src/unnamed/part_002) as
  `Capto.ignores`, `Capto.collectFilesRecursive` and `Capto.buildTree` over a
  `Capto.FSEntry` tree whose child lists carry the `fs.readdirSync` order.
  The third-party `ignore` package is modelled, per its documented gitignore
  semantics (an ordered pattern list where the last matching rule's polarity
  is the verdict, `!` negating), restricted to literal patterns without glob
  or anchoring metacharacters (`Capto.litPattern`); every theorem that
  quantifies over patterns assumes that restriction.

JavaScript strings are modelled as Lean `String` (a list of characters in
this toolchain); `s.split(sep)`, `s.substring(0, k)` and `s.length` become
`Capto.splitStr`, `Capto.takeChars` and `String.length`.
-/

set_option maxHeartbeats 1600000
set_option maxRecDepth 100000

namespace Capto

/-- Split a character list at every occurrence of `sep`, keeping empty pieces:
the semantics of JavaScript `String.prototype.split` with a one-character
separator (`"".split(sep)` is `[""]`, a trailing separator yields a trailing
empty piece). -/
def splitOnChar (sep : Char) : List Char → List (List Char)
  | [] => [[]]
  | c :: cs =>
    let r := splitOnChar sep cs
    if c = sep then [] :: r
    else
      match r with
      | h :: t => (c :: h) :: t
      | [] => [[c]]

/-- JavaScript `s.substring(0, n)`: the first `n` characters. -/
def takeChars (s : String) (n : Nat) : String := String.mk (s.data.take n)

/-- JavaScript `s.split(sep)` for a one-character separator. -/
def splitStr (sep : Char) (s : String) : List String :=
  (splitOnChar sep s.data).map String.mk

/-- JavaScript `content.split('\n')` as used in `_generateTextFileHTML`. -/
def splitLines (s : String) : List String := splitStr '\n' s

/-- Segments of a relative path, splitting at `'/'`. -/
def pathSegments (s : String) : List String := splitStr '/' s

/-- JavaScript `s.replace(/c/g, r)` for a one-character pattern `c`. -/
def replaceCharWith (s : String) (c : Char) (r : String) : String :=
  String.join (s.data.map (fun d => if d = c then r else String.mk [d]))

/-- Mirrors `HTMLToPDFGenerator._escapeHTML` (src/unnamed/part_005, lines
424-431): five sequential global one-character replaces, ampersand first. -/
def escapeHTML (text : String) : String :=
  replaceCharWith (replaceCharWith (replaceCharWith (replaceCharWith
    (replaceCharWith text '&' "&amp;") '<' "&lt;") '>' "&gt;") '"' "&quot;")
    '\'' "&#039;"

/-- Observable behaviour, for one file path, of the external calls made by
`FileContentReader.getFileContent`: the `isBinaryFileSync` probe, the
`fs.readFileSync` buffer (bytes, or the message of a thrown error), the
`chardet.detect` result (`none` models `null`), and the `iconv.decode`
function (result, or the message of a thrown error). -/
structure IOFile where
  isBinaryFileSync : Bool
  readFileSync : Except String (List Nat)
  chardetDetect : Option String
  iconvDecode : List Nat → String → Except String String

/-- Mirrors the `FileContentResult` interface (src/unnamed/part_000, lines
10-14). -/
structure FileContentResult where
  content : String
  error : Option String := none
  encoding : Option String := none
deriving DecidableEq, Repr

/-- Character class of the regex `[\x00-\x08\x0E-\x1F\x7F-\x9F]` used by the
control-character screen (src/unnamed/part_000, line 54). -/
def isControlChar (c : Char) : Bool :=
  (c.toNat ≤ 0x08) || (0x0E ≤ c.toNat && c.toNat ≤ 0x1F) ||
    (0x7F ≤ c.toNat && c.toNat ≤ 0x9F)

/-- Number of matches of the control-character regex over the decoded
content: `content.match(/[\x00-\x08\x0E-\x1F\x7F-\x9F]/g)` match count. -/
def countControlChars (s : String) : Nat :=
  (s.data.filter isControlChar).length

/-- BOM removal (src/unnamed/part_000, lines 46-48):
`if (content.charCodeAt(0) === 0xFEFF) content = content.slice(1)`. -/
def stripBOM (s : String) : String :=
  match s.data with
  | c :: rest => if c.toNat = 0xFEFF then String.mk rest else s
  | [] => s

/-- Mirrors `FileContentReader.getFileContent` (src/unnamed/part_000, lines
25-70). The binary probe, the read, the charset detection and the decode are
taken from the `IOFile` record; a thrown read or decode error lands in the
`catch` branch, so the embedded function is total. The comparison
`controlChars.length > content.length * 0.1` is modelled exactly as
`10 * count > length` (both sides integral, multiplied through by 10). -/
def getFileContent (f : IOFile) : FileContentResult :=
  if f.isBinaryFileSync then
    { content := "", error := some "Binary file (content not displayed)" }
  else
    match f.readFileSync with
    | Except.error e =>
      { content := "", error := some ("Reading error: " ++ e) }
    | Except.ok buffer =>
      let encoding := Option.getD f.chardetDetect "utf8"
      match f.iconvDecode buffer encoding with
      | Except.error e =>
        { content := "", error := some ("Reading error: " ++ e) }
      | Except.ok decoded =>
        let content := stripBOM decoded
        if 10 * countControlChars content > content.length then
          { content := ""
            error := some "File contains control characters (content not displayed)"
            encoding := some encoding }
        else
          { content := content, encoding := some encoding }

/-- Line cap of `_generateTextFileHTML` (src/unnamed/part_005, line 343). -/
def maxLines : Nat := 500

/-- Per-line character cap of `_generateTextFileHTML` (src/unnamed/part_005,
line 355). -/
def maxLineLength : Nat := 300

/-- One rendered content line (src/unnamed/part_005, lines 350-361): the line
number span, then the line (truncated with an ellipsis when longer than
`maxLineLength`), HTML-escaped. -/
def renderContentLine (idx : Nat) (line : String) : String :=
  let displayLine :=
    if line.length > maxLineLength then takeChars line maxLineLength ++ "..."
    else line
  "<span class=\"file-content-line\"><span class=\"line-number\">" ++
    toString (idx + 1) ++ "</span>" ++ escapeHTML displayLine ++ "</span>\n"

/-- The loop of `_generateTextFileHTML` over `displayLines`, accumulating one
rendered line per entry. -/
def renderContentLines (ls : List String) : String :=
  String.join (ls.enum.map (fun p => renderContentLine p.1 p.2))

/-- Encoding banner (src/unnamed/part_005, lines 334-337); the JavaScript
truthiness test `if (encoding)` also rejects an empty string. -/
def encodingInfoHTML (encoding : Option String) : String :=
  match encoding with
  | some enc =>
    if enc = "" then ""
    else "<div class=\"encoding-info\">Encoding: " ++ enc ++ "</div>"
  | none => ""

/-- Mirrors `HTMLToPDFGenerator._generateTextFileHTML` (src/unnamed/part_005,
lines 326-370) for the file whose reads behave as `f` describes: an error
result renders as a binary-notice paragraph; otherwise the encoding banner,
then the first `maxLines` lines inside `<pre>`, then the omission marker when
lines were dropped. -/
def generateTextFileHTML (f : IOFile) : String :=
  let r := getFileContent f
  match r.error with
  | some err => "<p class=\"binary-notice\">" ++ escapeHTML err ++ "</p>"
  | none =>
    let contentLines := splitLines r.content
    let displayLines :=
      if contentLines.length > maxLines then contentLines.take maxLines
      else contentLines
    encodingInfoHTML r.encoding ++ "<pre>" ++ renderContentLines displayLines ++
      (if contentLines.length > maxLines then
        "\n\n... (" ++ toString (contentLines.length - maxLines) ++ " more lines)"
      else "") ++ "</pre>"

/-- Parse one line of an ignore rule list the way the `ignore` package reads
gitignore text: an empty line or a `#` comment matches nothing, a leading `!`
negates, anything else is a positive pattern. -/
def parseIgnorePattern (p : String) : Option (Bool × String) :=
  match p.data with
  | [] => none
  | c :: rest =>
    if c = '#' then none
    else if c = '!' then some (true, String.mk rest)
    else some (false, p)

/-- Matching of a literal (glob-free, slash-free) gitignore pattern body
against a relative path: such a pattern names a file or directory at any
level, and a matched directory covers everything beneath it, so the pattern
matches exactly when it equals one of the path's segments. -/
def patternMatchesPath (body : String) (relPath : String) : Bool :=
  (pathSegments relPath).any (fun seg => seg = body)

/-- Pattern bodies our `ignore`-package model interprets: literal names with
no slash and no glob or escape metacharacter. -/
def litPattern (p : String) : Bool :=
  p.data.all (fun c => c ≠ '/' && c ≠ '*' && c ≠ '?' && c ≠ '[' && c ≠ '\\')

/-- One rule of the ordered list applied to the running verdict: a matching
rule's polarity replaces the verdict, anything else keeps it. -/
def ignoreStep (relPath : String) (verdict : Bool) (p : String) : Bool :=
  match parseIgnorePattern p with
  | none => verdict
  | some (negated, body) =>
    if patternMatchesPath body relPath then !negated else verdict

/-- Mirrors `Ignore.ignores` of the `ignore` package, as the spec's design
notes describe it: the ordered rule list is evaluated in full and the last
matching rule's polarity is the verdict; no rule matching means not
ignored. -/
def ignores (rules : List String) (relPath : String) : Bool :=
  rules.foldl (ignoreStep relPath) false

/-- Mirrors the `IgnoreRulesManager` constructor (src/unnamed/part_002, lines
26-43): the built-in `.git` rule first, then the root `.gitignore` lines when
that file exists, then the caller's extra patterns. -/
def mkIgnoreRules (gitignoreLines : Option (List String))
    (extraIgnores : List String) : List String :=
  [".git"] ++ Option.getD gitignoreLines [] ++ extraIgnores

/-- File classification produced by `FileCollector._detectFileType`. -/
inductive FileType where
  | text
  | image
  | binary
deriving DecidableEq, Repr

/-- One filesystem entry as the walker observes it: a file carries the result
the `isBinaryFileSync` content probe would give for it, a directory carries
its children in `fs.readdirSync` order. -/
inductive FSEntry where
  | file (name : String) (isBinaryContent : Bool)
  | dir (name : String) (children : List FSEntry)

/-- Name of an entry, as `readdirSync` lists it. -/
def entName : FSEntry → String
  | .file n _ => n
  | .dir n _ => n

/-- Result of `fs.statSync(fullPath).isDirectory()` for an entry. -/
def entIsDir : FSEntry → Bool
  | .file _ _ => false
  | .dir _ _ => true

/-- Mirrors the `CollectedFile` interface (src/unnamed/part_002, lines 9-13);
the absolute `path` field is the base directory joined with `relativePath`
and is omitted. -/
structure CollectedFile where
  relativePath : String
  type : FileType
deriving DecidableEq, Repr

/-- Node's `path.extname` on a base name: the suffix from the last dot,
unless that dot is the first character. -/
def extname (name : String) : String :=
  match (name.data.enum.filter (fun p => p.2 = '.')).getLast? with
  | some (i, _) => if i = 0 then "" else String.mk (name.data.drop i)
  | none => ""

/-- Image extension table of `FileCollector._detectFileType`
(src/unnamed/part_002, line 143). -/
def imageExts : List String :=
  [".jpg", ".jpeg", ".png", ".gif", ".bmp", ".webp", ".svg", ".tiff", ".tif"]

/-- JavaScript `s.toLowerCase()` on an extension: character-wise
lowercasing. -/
def lowerStr (s : String) : String := String.mk (s.data.map Char.toLower)

/-- Mirrors `FileCollector._detectFileType` (src/unnamed/part_002, lines
141-152): image extensions first, then the binary content probe, text
otherwise. -/
def detectFileType (name : String) (isBinaryContent : Bool) : FileType :=
  if imageExts.contains (lowerStr (extname name)) then .image
  else if isBinaryContent then .binary
  else .text

/-- Path of an entry relative to the base directory: its name segments from
the root joined with `/`, as `path.relative(baseDir, fullPath)` yields on
POSIX. -/
def relPathOf : List String → String
  | [] => ""
  | [s] => s
  | s :: rest => s ++ "/" ++ relPathOf rest

/-- Lexicographic code-point comparison of character lists. -/
def charListLe : List Char → List Char → Bool
  | [], _ => true
  | _ :: _, [] => false
  | a :: as, b :: bs =>
    if a.toNat < b.toNat then true
    else if b.toNat < a.toNat then false
    else charListLe as bs

/-- Name order of the tree comparator: `a.localeCompare(b) <= 0`, modelling
`localeCompare` as lexicographic code-point comparison. -/
def strLe (a b : String) : Bool := charListLe a.data b.data

/-- Comparator of `_buildTree` (src/unnamed/part_002, lines 167-173) as a
total order: directories before files, then name order. -/
def nodeLe (a b : FSEntry) : Bool :=
  if entIsDir a && !entIsDir b then true
  else if !entIsDir a && entIsDir b then false
  else strLe (entName a) (entName b)

/-- Insertion step of the sort used to model `items.sort(comparator)`. -/
def insertSorted (x : FSEntry) : List FSEntry → List FSEntry
  | [] => [x]
  | y :: ys => if nodeLe x y then x :: y :: ys else y :: insertSorted x ys

/-- Sorting of one directory listing by `nodeLe`; directory listings have
distinct names, for which any sort agreeing with the comparator produces
this unique result. -/
def sortEntries : List FSEntry → List FSEntry
  | [] => []
  | x :: xs => insertSorted x (sortEntries xs)

/-- Mirrors `FileCollector._collectFilesRecursive` (src/unnamed/part_002,
lines 101-134): the `readdirSync` listing is walked in its stored order with
no sorting; ignored entries are skipped, directories are descended into only
when `recursive` holds, files are pushed with their detected type. -/
def collectFilesRecursive (rules : List String) (recursive : Bool)
    (segs : List String) (l : List FSEntry) : List CollectedFile :=
  match l with
  | [] => []
  | e :: rest =>
    let relativePath := relPathOf (segs ++ [entName e])
    if ignores rules relativePath then collectFilesRecursive rules recursive segs rest
    else
      match e with
      | .dir nm children =>
        (if recursive then collectFilesRecursive rules recursive (segs ++ [nm]) children
         else []) ++ collectFilesRecursive rules recursive segs rest
      | .file nm isBin =>
        { relativePath := relativePath, type := detectFileType nm isBin } ::
          collectFilesRecursive rules recursive segs rest
termination_by sizeOf l
decreasing_by
  all_goals simp_wf
  all_goals omega

/-- Mirrors `FileCollector.collectFiles` (src/unnamed/part_002, lines
79-83). -/
def collectFiles (rules : List String) (recursive : Bool)
    (entries : List FSEntry) : List CollectedFile :=
  collectFilesRecursive rules recursive [] entries

mutual

/-- Mirrors `FileCollector._buildTree` (src/unnamed/part_002, lines 161-195):
at positive depth without the recursive flag nothing is produced; otherwise
the listing is sorted with the directories-first comparator and rendered by
`buildTreeGo`. -/
def buildTree (rules : List String) (recursive : Bool) (entries : List FSEntry)
    (pre : String) (segs : List String) (depth : Nat) : List String :=
  if depth > 0 && !recursive then []
  else
    let sorted := sortEntries entries
    buildTreeGo rules recursive pre segs depth sorted.length 0 sorted
termination_by 1 + sizeOf entries
decreasing_by
  simp_wf
  have hins : ∀ (x : FSEntry) (l : List FSEntry),
      sizeOf (insertSorted x l) = 1 + sizeOf x + sizeOf l := by
    intro x l
    induction l with
    | nil => simp [insertSorted]
    | cons y ys ih =>
      simp only [insertSorted]
      split
      · simp
      · simp [ih]
        omega
  have hsort : ∀ l : List FSEntry, sizeOf (sortEntries l) = sizeOf l := by
    intro l
    induction l with
    | nil => rfl
    | cons x xs ih =>
      simp [sortEntries, hins, ih]
  rw [hsort]
  omega

/-- The `forEach` body of `_buildTree` (src/unnamed/part_002, lines 175-190):
`n` is the sorted listing's length and `idx` the current index; an ignored
entry produces nothing, a visible entry produces its connector line, and a
directory is recursed into when the recursive flag holds, with the prefix
extended by the branch continuation. -/
def buildTreeGo (rules : List String) (recursive : Bool) (pre : String)
    (segs : List String) (depth : Nat) (n idx : Nat) (l : List FSEntry) :
    List String :=
  match l with
  | [] => []
  | item :: rest =>
    let relativePath := relPathOf (segs ++ [entName item])
    let restLines := buildTreeGo rules recursive pre segs depth n (idx + 1) rest
    if ignores rules relativePath then restLines
    else
      let isLast := idx == n - 1
      let connector := if isLast then "└── " else "├── "
      let line := pre ++ connector ++ entName item ++
        (if entIsDir item then "/" else "")
      match item with
      | .file _ _ => line :: restLines
      | .dir nm children =>
        if recursive then
          line :: (buildTree rules recursive children
            (pre ++ (if isLast then "    " else "│   "))
            (segs ++ [nm]) (depth + 1) ++ restLines)
        else line :: restLines
termination_by sizeOf l
decreasing_by
  all_goals simp_wf
  all_goals omega

end

/-- Mirrors `FileCollector.getDirectoryStructure` (src/unnamed/part_002,
lines 89-94): the base directory's base name with a slash, then the tree
lines. -/
def getDirectoryStructure (rootBasename : String) (rules : List String)
    (recursive : Bool) (entries : List FSEntry) : List String :=
  (rootBasename ++ "/") :: buildTree rules recursive entries "" [] 0

/-- Per-kind count as `main` and `generatePDF` compute it
(src/unnamed/part_003 lines 65-67, src/unnamed/part_005 lines 44-46):
`files.filter(f => f.type === t).length`. -/
def countFilesOfType (files : List CollectedFile) (t : FileType) : Nat :=
  (files.filter (fun f => f.type == t)).length

/-- Decoding of a byte buffer as one character per byte: what charset
detection plus `iconv.decode` produce on pure ASCII input. -/
def asciiDecode (bytes : List Nat) : String :=
  String.mk (bytes.map Char.ofNat)

/-- Byte of a pure printable ASCII text: a printable character or the line
feed. -/
def printableAsciiOrLF (b : Nat) : Bool :=
  b == 0x0A || (0x20 ≤ b && b ≤ 0x7E)

/-- Connector line of one visible entry at one tree level. -/
def levelLine (pre : String) (isLast : Bool) (item : FSEntry) : String :=
  pre ++ (if isLast then "└── " else "├── ") ++ entName item ++
    (if entIsDir item then "/" else "")

/-- One enumerated directory level rendered flat, with no descent: the lines
the spec says a non-recursive tree shows. `n` is the full sorted listing's
length, `idx` the current index. -/
def flatLevelLines (rules : List String) (pre : String) (segs : List String)
    (n idx : Nat) (l : List FSEntry) : List String :=
  match l with
  | [] => []
  | item :: rest =>
    (if ignores rules (relPathOf (segs ++ [entName item])) then []
     else [levelLine pre (idx == n - 1) item]) ++
      flatLevelLines rules pre segs n (idx + 1) rest

/-- Rendered block of one entry of an enumerated level: nothing when the
entry is ignored; otherwise its connector line — terminal exactly when the
entry's index is the last of the full sorted listing of length `n`, the
index being counted over all sorted entries, ignored ones included —
followed, for a directory under the recursive flag, by its rendered
subtree. -/
def levelBlock (rules : List String) (recursive : Bool) (pre : String)
    (segs : List String) (depth n : Nat) (p : Nat × FSEntry) : List String :=
  if ignores rules (relPathOf (segs ++ [entName p.2])) then []
  else
    levelLine pre (p.1 == n - 1) p.2 ::
      (match p.2 with
       | .file _ _ => []
       | .dir nm ch =>
         if recursive then
           buildTree rules recursive ch
             (pre ++ (if p.1 == n - 1 then "    " else "│   "))
             (segs ++ [nm]) (depth + 1)
         else [])

/-- Files of one directory level only, in `readdirSync` order, skipping
ignored entries and all directories: what the spec says a non-recursive
collection returns. -/
def topLevelFiles (rules : List String) (segs : List String)
    (l : List FSEntry) : List CollectedFile :=
  match l with
  | [] => []
  | .dir _ _ :: rest => topLevelFiles rules segs rest
  | .file nm isBin :: rest =>
    (if ignores rules (relPathOf (segs ++ [nm])) then []
     else [{ relativePath := relPathOf (segs ++ [nm])
             type := detectFileType nm isBin }]) ++
      topLevelFiles rules segs rest

mutual

/-- Modelled from the spec: "files are processed in the same order they
appear in the enumerated file list, which itself follows the sorted tree
order". The collection walk of `collectFilesRecursive`, but iterating every
directory listing in the sorted order `_buildTree` displays it. -/
def collectFilesSortedOrder (rules : List String) (recursive : Bool)
    (segs : List String) (l : List FSEntry) : List CollectedFile :=
  collectFilesSortedGo rules recursive segs (sortEntries l)
termination_by 1 + sizeOf l
decreasing_by
  simp_wf
  have hins : ∀ (x : FSEntry) (l : List FSEntry),
      sizeOf (insertSorted x l) = 1 + sizeOf x + sizeOf l := by
    intro x l
    induction l with
    | nil => simp [insertSorted]
    | cons y ys ih =>
      simp only [insertSorted]
      split
      · simp
      · simp [ih]
        omega
  have hsort : ∀ l : List FSEntry, sizeOf (sortEntries l) = sizeOf l := by
    intro l
    induction l with
    | nil => rfl
    | cons x xs ih =>
      simp [sortEntries, hins, ih]
  rw [hsort]
  omega

/-- Per-listing loop of `collectFilesSortedOrder`. -/
def collectFilesSortedGo (rules : List String) (recursive : Bool)
    (segs : List String) (l : List FSEntry) : List CollectedFile :=
  match l with
  | [] => []
  | e :: rest =>
    let relativePath := relPathOf (segs ++ [entName e])
    if ignores rules relativePath then
      collectFilesSortedGo rules recursive segs rest
    else
      match e with
      | .dir nm children =>
        (if recursive then
          collectFilesSortedOrder rules recursive (segs ++ [nm]) children
         else []) ++ collectFilesSortedGo rules recursive segs rest
      | .file nm isBin =>
        { relativePath := relativePath, type := detectFileType nm isBin } ::
          collectFilesSortedGo rules recursive segs rest
termination_by sizeOf l
decreasing_by
  all_goals simp_wf
  all_goals omega

end

/-- Whether one directory listing is already in the comparator's order. -/
def listingSorted : List FSEntry → Bool
  | [] => true
  | [_] => true
  | a :: b :: rest => nodeLe a b && listingSorted (b :: rest)

mutual

/-- Whether every directory listing in an entry's subtree is already stored
in the comparator's order (so sorting leaves each listing unchanged). -/
def treeSorted : FSEntry → Bool
  | .file _ _ => true
  | .dir _ children => listingSorted children && treeSortedList children

/-- `treeSorted` over a listing. -/
def treeSortedList : List FSEntry → Bool
  | [] => true
  | e :: rest => treeSorted e && treeSortedList rest

end

/-- Whether a listing and every subtree below it are already stored in the
comparator's order. -/
def forestSorted (l : List FSEntry) : Bool :=
  listingSorted l && treeSortedList l

/-- The same entry with the children of a `.git` directory removed; renaming
nothing, so sorting and connectors are unaffected. -/
def gutDotGit (e : FSEntry) : FSEntry :=
  match e with
  | .dir nm _ => if nm = ".git" then .dir nm [] else e
  | .file _ _ => e

/-- Reads of a text file of 501 one-character lines (500 trailing line
feeds). -/
def ioFile501 : IOFile :=
  { isBinaryFileSync := false
    readFileSync := Except.ok []
    chardetDetect := some "ascii"
    iconvDecode := fun _ _ => Except.ok (String.join (List.replicate 500 "x\n")) }

/-- Reads of a 10-character file with 2 control characters (20 percent). -/
def ioFileControl : IOFile :=
  { isBinaryFileSync := false
    readFileSync := Except.ok [0, 0, 65, 66, 67, 68, 69, 70, 71, 72]
    chardetDetect := none
    iconvDecode := fun _ _ => Except.ok "\x00\x00ABCDEFGH" }

/-- Reads of a small pure-ASCII two-line file, with an ASCII-transparent
decoder. -/
def ioFileAsciiSmall : IOFile :=
  { isBinaryFileSync := false
    readFileSync := Except.ok [104, 105, 10, 121, 111]
    chardetDetect := some "ascii"
    iconvDecode := fun b _ => Except.ok (asciiDecode b) }

/-- Reads of a pure-ASCII file whose single line is 301 repetitions of `a`,
with an ASCII-transparent decoder. -/
def ioFileLongLine : IOFile :=
  { isBinaryFileSync := false
    readFileSync := Except.ok (List.replicate 301 0x61)
    chardetDetect := some "ascii"
    iconvDecode := fun b _ => Except.ok (asciiDecode b) }

/-- Reads of a path whose `fs.readFileSync` throws. -/
def ioFileReadError : IOFile :=
  { isBinaryFileSync := false
    readFileSync := Except.error "ENOENT: no such file or directory"
    chardetDetect := none
    iconvDecode := fun _ _ => Except.ok "" }

/-- Reads of an existing, readable, zero-byte file: the binary probe says
text, detection finds nothing, decoding the empty buffer yields the empty
string. -/
def ioFileEmpty : IOFile :=
  { isBinaryFileSync := false
    readFileSync := Except.ok []
    chardetDetect := none
    iconvDecode := fun _ _ => Except.ok "" }

/-- Root listing holding a `.git` directory with one file, and a text
file. -/
def gitTreeExample : List FSEntry :=
  [.dir ".git" [.file "config" false], .file "a.txt" false]

/-- Ignore rules built from the extra pattern list `["!.git"]`. -/
def reincludeGitRules : List String := mkIgnoreRules none ["!.git"]

/-- Root listing whose `readdirSync` order is not alphabetical. -/
def unsortedListing : List FSEntry :=
  [.file "b.txt" false, .file "a.txt" false]

/-- Root listing of two text files in alphabetical order. -/
def abListing : List FSEntry :=
  [.file "a.txt" false, .file "b.txt" false]

/-- Ignore rules built from the extra pattern list `["b.txt"]`. -/
def ignoreBRules : List String := mkIgnoreRules none ["b.txt"]

/-! Shared lemmas and claim theorems. The first block restates the equations
of the well-founded definitions in per-constructor form. -/

theorem collectFilesRecursive_nil (rules : List String) (recursive : Bool)
    (segs : List String) :
    collectFilesRecursive rules recursive segs [] = [] := by
  rw [collectFilesRecursive.eq_def]

theorem collectFilesRecursive_cons_dir (rules : List String) (recursive : Bool)
    (segs : List String) (nm : String) (ch rest : List FSEntry) :
    collectFilesRecursive rules recursive segs (FSEntry.dir nm ch :: rest) =
      if ignores rules (relPathOf (segs ++ [nm])) then
        collectFilesRecursive rules recursive segs rest
      else
        (if recursive then collectFilesRecursive rules recursive (segs ++ [nm]) ch
         else []) ++ collectFilesRecursive rules recursive segs rest := by
  rw [collectFilesRecursive.eq_def]
  rfl

theorem collectFilesRecursive_cons_file (rules : List String) (recursive : Bool)
    (segs : List String) (nm : String) (isBin : Bool) (rest : List FSEntry) :
    collectFilesRecursive rules recursive segs (FSEntry.file nm isBin :: rest) =
      if ignores rules (relPathOf (segs ++ [nm])) then
        collectFilesRecursive rules recursive segs rest
      else
        { relativePath := relPathOf (segs ++ [nm])
          type := detectFileType nm isBin } ::
          collectFilesRecursive rules recursive segs rest := by
  rw [collectFilesRecursive.eq_def]
  rfl

theorem collectFilesSortedGo_nil (rules : List String) (recursive : Bool)
    (segs : List String) :
    collectFilesSortedGo rules recursive segs [] = [] := by
  rw [collectFilesSortedGo.eq_def]

theorem collectFilesSortedGo_cons_dir (rules : List String) (recursive : Bool)
    (segs : List String) (nm : String) (ch rest : List FSEntry) :
    collectFilesSortedGo rules recursive segs (FSEntry.dir nm ch :: rest) =
      if ignores rules (relPathOf (segs ++ [nm])) then
        collectFilesSortedGo rules recursive segs rest
      else
        (if recursive then collectFilesSortedOrder rules recursive (segs ++ [nm]) ch
         else []) ++ collectFilesSortedGo rules recursive segs rest := by
  rw [collectFilesSortedGo.eq_def]
  rfl

theorem collectFilesSortedGo_cons_file (rules : List String) (recursive : Bool)
    (segs : List String) (nm : String) (isBin : Bool) (rest : List FSEntry) :
    collectFilesSortedGo rules recursive segs (FSEntry.file nm isBin :: rest) =
      if ignores rules (relPathOf (segs ++ [nm])) then
        collectFilesSortedGo rules recursive segs rest
      else
        { relativePath := relPathOf (segs ++ [nm])
          type := detectFileType nm isBin } ::
          collectFilesSortedGo rules recursive segs rest := by
  rw [collectFilesSortedGo.eq_def]
  rfl

theorem collectFilesSortedOrder_eq (rules : List String) (recursive : Bool)
    (segs : List String) (l : List FSEntry) :
    collectFilesSortedOrder rules recursive segs l =
      collectFilesSortedGo rules recursive segs (sortEntries l) := by
  rw [collectFilesSortedOrder.eq_def]

theorem buildTree_eq (rules : List String) (recursive : Bool)
    (entries : List FSEntry) (pre : String) (segs : List String) (depth : Nat) :
    buildTree rules recursive entries pre segs depth =
      if depth > 0 && !recursive then []
      else
        buildTreeGo rules recursive pre segs depth
          (sortEntries entries).length 0 (sortEntries entries) := by
  rw [buildTree.eq_def]

theorem buildTreeGo_nil (rules : List String) (recursive : Bool) (pre : String)
    (segs : List String) (depth n idx : Nat) :
    buildTreeGo rules recursive pre segs depth n idx [] = [] := by
  rw [buildTreeGo.eq_def]

theorem buildTreeGo_cons_file (rules : List String) (recursive : Bool)
    (pre : String) (segs : List String) (depth n idx : Nat) (nm : String)
    (isBin : Bool) (rest : List FSEntry) :
    buildTreeGo rules recursive pre segs depth n idx
        (FSEntry.file nm isBin :: rest) =
      if ignores rules (relPathOf (segs ++ [nm])) then
        buildTreeGo rules recursive pre segs depth n (idx + 1) rest
      else
        (pre ++ (if idx == n - 1 then "└── " else "├── ") ++ nm ++ "") ::
          buildTreeGo rules recursive pre segs depth n (idx + 1) rest := by
  rw [buildTreeGo.eq_def]
  rfl

theorem buildTreeGo_cons_dir (rules : List String) (recursive : Bool)
    (pre : String) (segs : List String) (depth n idx : Nat) (nm : String)
    (ch rest : List FSEntry) :
    buildTreeGo rules recursive pre segs depth n idx
        (FSEntry.dir nm ch :: rest) =
      if ignores rules (relPathOf (segs ++ [nm])) then
        buildTreeGo rules recursive pre segs depth n (idx + 1) rest
      else
        (pre ++ (if idx == n - 1 then "└── " else "├── ") ++ nm ++ "/") ::
          (if recursive then
            buildTree rules recursive ch
              (pre ++ (if idx == n - 1 then "    " else "│   "))
              (segs ++ [nm]) (depth + 1) ++
              buildTreeGo rules recursive pre segs depth n (idx + 1) rest
          else buildTreeGo rules recursive pre segs depth n (idx + 1) rest) := by
  cases recursive <;> (rw [buildTreeGo.eq_def]; rfl)

theorem listingSorted_tail {e : FSEntry} {rest : List FSEntry}
    (h : listingSorted (e :: rest) = true) : listingSorted rest = true := by
  cases rest with
  | nil => rfl
  | cons b r =>
    simp only [listingSorted, Bool.and_eq_true] at h
    exact h.2

theorem listingSorted_head {a b : FSEntry} {rest : List FSEntry}
    (h : listingSorted (a :: b :: rest) = true) : nodeLe a b = true := by
  simp only [listingSorted, Bool.and_eq_true] at h
  exact h.1

theorem sortEntries_eq_of_listingSorted {l : List FSEntry}
    (h : listingSorted l = true) : sortEntries l = l := by
  induction l with
  | nil => rfl
  | cons x xs ih =>
    have hxs := listingSorted_tail h
    rw [sortEntries, ih hxs]
    cases xs with
    | nil => rfl
    | cons y ys => simp [insertSorted, listingSorted_head h]

theorem mem_of_mem_insertSorted {a x : FSEntry} {l : List FSEntry}
    (h : a ∈ insertSorted x l) : a = x ∨ a ∈ l := by
  induction l with
  | nil =>
    simp only [insertSorted, List.mem_singleton] at h
    exact Or.inl h
  | cons y ys ih =>
    simp only [insertSorted] at h
    split at h
    · rcases List.mem_cons.1 h with h | h
      · exact Or.inl h
      · exact Or.inr h
    · rcases List.mem_cons.1 h with h | h
      · exact Or.inr (h ▸ List.mem_cons_self _ _)
      · rcases ih h with h | h
        · exact Or.inl h
        · exact Or.inr (List.mem_cons_of_mem _ h)

theorem mem_insertSorted_of_mem {a x : FSEntry} {l : List FSEntry}
    (h : a = x ∨ a ∈ l) : a ∈ insertSorted x l := by
  induction l with
  | nil =>
    rcases h with h | h
    · simp [insertSorted, h]
    · simp at h
  | cons y ys ih =>
    simp only [insertSorted]
    split
    · rcases h with h | h
      · exact h ▸ List.mem_cons_self _ _
      · exact List.mem_cons_of_mem _ h
    · rcases h with h | h
      · exact List.mem_cons_of_mem _ (ih (Or.inl h))
      · rcases List.mem_cons.1 h with h | h
        · exact h ▸ List.mem_cons_self _ _
        · exact List.mem_cons_of_mem _ (ih (Or.inr h))

theorem mem_of_mem_sortEntries {a : FSEntry} {l : List FSEntry}
    (h : a ∈ sortEntries l) : a ∈ l := by
  induction l with
  | nil => simp [sortEntries] at h
  | cons x xs ih =>
    rw [sortEntries] at h
    rcases mem_of_mem_insertSorted h with h | h
    · exact h ▸ List.mem_cons_self _ _
    · exact List.mem_cons_of_mem _ (ih h)

theorem mem_sortEntries_of_mem {a : FSEntry} {l : List FSEntry}
    (h : a ∈ l) : a ∈ sortEntries l := by
  induction l with
  | nil => simp at h
  | cons x xs ih =>
    rw [sortEntries]
    rcases List.mem_cons.1 h with h | h
    · exact mem_insertSorted_of_mem (Or.inl h)
    · exact mem_insertSorted_of_mem (Or.inr (ih h))

theorem forestSorted_tail {e : FSEntry} {rest : List FSEntry}
    (h : forestSorted (e :: rest) = true) : forestSorted rest = true := by
  simp only [forestSorted, Bool.and_eq_true] at h ⊢
  refine ⟨listingSorted_tail h.1, ?_⟩
  have hl := h.2
  rw [treeSortedList, Bool.and_eq_true] at hl
  exact hl.2

theorem treeSorted_head {e : FSEntry} {rest : List FSEntry}
    (h : forestSorted (e :: rest) = true) : treeSorted e = true := by
  simp only [forestSorted, Bool.and_eq_true] at h
  have hl := h.2
  rw [treeSortedList, Bool.and_eq_true] at hl
  exact hl.1

theorem forestSorted_children {nm : String} {ch : List FSEntry}
    (h : treeSorted (FSEntry.dir nm ch) = true) : forestSorted ch = true := by
  rw [treeSorted] at h
  simpa [forestSorted] using h

theorem buildTreeGo_eq_join_levelBlocks (rules : List String) (recursive : Bool)
    (pre : String) (segs : List String) (depth n : Nat) :
    ∀ (l : List FSEntry) (idx : Nat),
      buildTreeGo rules recursive pre segs depth n idx l =
        List.flatten ((List.enumFrom idx l).map
          (levelBlock rules recursive pre segs depth n)) := by
  intro l
  induction l with
  | nil =>
    intro idx
    rw [buildTreeGo_nil]
    rfl
  | cons e rest ih =>
    intro idx
    cases e with
    | file nm isBin =>
      rw [buildTreeGo_cons_file]
      by_cases hc : ignores rules (relPathOf (segs ++ [nm])) = true
      · simp [levelBlock, entName, hc, ih (idx + 1)]
      · simp [levelBlock, entName, entIsDir, hc, ih (idx + 1), levelLine]
    | dir nm ch =>
      rw [buildTreeGo_cons_dir]
      by_cases hc : ignores rules (relPathOf (segs ++ [nm])) = true
      · simp [levelBlock, entName, hc, ih (idx + 1)]
      · cases recursive
        · simp [levelBlock, entName, entIsDir, hc, ih (idx + 1), levelLine]
        · simp [levelBlock, entName, entIsDir, hc, ih (idx + 1), levelLine]

/-- C8 amended: within every directory level — each level of the tree,
recursive or not, is the rendering of one `buildTree` call over that level's
listing — the output is the concatenation of the per-entry blocks of the
full sorted listing: a visible entry at sorted index `i` is rendered with
the terminal connector exactly when `i = n - 1`, where `n` counts all sorted
entries including ignored ones, and every earlier sorted entry uses the
non-terminal connector; hence the last visible entry uses the terminal
connector exactly when it is also the last sorted entry of its level. -/
theorem terminal_connector_amended (rules : List String) (recursive : Bool)
    (entries : List FSEntry) (pre : String) (segs : List String) (depth : Nat)
    (hok : depth = 0 ∨ recursive = true) :
    buildTree rules recursive entries pre segs depth =
      List.flatten ((sortEntries entries).enum.map
        (levelBlock rules recursive pre segs depth (sortEntries entries).length)) ∧
    ∀ p ∈ (sortEntries entries).enum,
      ignores rules (relPathOf (segs ++ [entName p.2])) = false →
      levelLine pre (p.1 == (sortEntries entries).length - 1) p.2 ∈
        buildTree rules recursive entries pre segs depth := by
  have hguard : (decide (depth > 0) && !recursive) = false := by
    rcases hok with rfl | rfl
    · simp
    · simp
  have heq : buildTree rules recursive entries pre segs depth =
      List.flatten ((sortEntries entries).enum.map
        (levelBlock rules recursive pre segs depth (sortEntries entries).length)) := by
    rw [buildTree_eq, hguard]
    simp only [Bool.false_eq_true, if_false]
    rw [buildTreeGo_eq_join_levelBlocks, List.enum]
  refine ⟨heq, ?_⟩
  intro p hp hvis
  rw [heq, List.mem_flatten]
  refine ⟨levelBlock rules recursive pre segs depth (sortEntries entries).length p,
    List.mem_map_of_mem _ hp, ?_⟩
  simp only [levelBlock]
  rw [if_neg (by simp [hvis])]
  exact List.mem_cons_self _ _

/-- Witness for the amended C8 at the counterexample's own level: the last
sorted entry `b.txt` is ignored, and the characterization still renders the
visible `a.txt` at index 0 with the non-terminal connector. -/
theorem terminal_connector_amended_witness :
    ((0 : Nat) = 0 ∨ (false : Bool) = true) ∧
    (buildTree ignoreBRules false abListing "" [] 0 =
      List.flatten ((sortEntries abListing).enum.map
        (levelBlock ignoreBRules false "" [] 0 (sortEntries abListing).length)) ∧
    ∀ p ∈ (sortEntries abListing).enum,
      ignores ignoreBRules (relPathOf ([] ++ [entName p.2])) = false →
      levelLine "" (p.1 == (sortEntries abListing).length - 1) p.2 ∈
        buildTree ignoreBRules false abListing "" [] 0) :=
  ⟨Or.inl rfl,
    terminal_connector_amended ignoreBRules false abListing "" [] 0 (Or.inl rfl)⟩

/-- C4 amended: the file list follows raw `readdirSync` order with each
subdirectory's contents inlined at its position, not the sorted tree order;
the two orders coincide exactly when every directory listing is already
stored in the comparator's order, in which case the collection walk equals
the sorted-order walk. -/
theorem collect_order_amended (rules : List String) (recursive : Bool)
    (segs : List String) (l : List FSEntry) (hs : forestSorted l = true) :
    collectFilesRecursive rules recursive segs l =
      collectFilesSortedOrder rules recursive segs l := by
  have main : ∀ (segs : List String) (l : List FSEntry), forestSorted l = true →
      collectFilesRecursive rules recursive segs l =
        collectFilesSortedGo rules recursive segs l := by
    intro segs l
    induction segs, l using collectFilesRecursive.induct rules recursive with
    | case1 segs =>
      intro _
      rw [collectFilesRecursive_nil, collectFilesSortedGo_nil]
    | case2 segs e rest rp hig ih =>
      intro h
      cases e with
      | file nm isBin =>
        have hig1 : ignores rules (relPathOf (segs ++ [nm])) = true := hig
        rw [collectFilesRecursive_cons_file, collectFilesSortedGo_cons_file,
          if_pos hig1, if_pos hig1]
        exact ih (forestSorted_tail h)
      | dir nm ch =>
        have hig1 : ignores rules (relPathOf (segs ++ [nm])) = true := hig
        rw [collectFilesRecursive_cons_dir, collectFilesSortedGo_cons_dir,
          if_pos hig1, if_pos hig1]
        exact ih (forestSorted_tail h)
    | case3 segs rest nm children rp hig ihch ihrest =>
      intro h
      have hig1 : ¬ignores rules (relPathOf (segs ++ [nm])) = true := hig
      rw [collectFilesRecursive_cons_dir, collectFilesSortedGo_cons_dir,
        if_neg hig1, if_neg hig1]
      have hch : forestSorted children = true :=
        forestSorted_children (treeSorted_head h)
      rw [ihrest (forestSorted_tail h), collectFilesSortedOrder_eq,
        sortEntries_eq_of_listingSorted (by
          simp only [forestSorted, Bool.and_eq_true] at hch
          exact hch.1),
        ihch hch]
    | case4 segs rest nm isBin rp hig ih =>
      intro h
      have hig1 : ¬ignores rules (relPathOf (segs ++ [nm])) = true := hig
      rw [collectFilesRecursive_cons_file, collectFilesSortedGo_cons_file,
        if_neg hig1, if_neg hig1, ih (forestSorted_tail h)]
  rw [main segs l hs, collectFilesSortedOrder_eq,
    sortEntries_eq_of_listingSorted (by
      simp only [forestSorted, Bool.and_eq_true] at hs
      exact hs.1)]

/-- Witness for the amended C4 at a sorted two-entry tree. -/
theorem collect_order_amended_witness :
    forestSorted [FSEntry.dir "sub" [FSEntry.file "x.txt" false],
      FSEntry.file "a.txt" false] = true ∧
    collectFilesRecursive (mkIgnoreRules none []) true []
        [FSEntry.dir "sub" [FSEntry.file "x.txt" false],
          FSEntry.file "a.txt" false] =
      collectFilesSortedOrder (mkIgnoreRules none []) true []
        [FSEntry.dir "sub" [FSEntry.file "x.txt" false],
          FSEntry.file "a.txt" false] :=
  ⟨by decide, collect_order_amended (mkIgnoreRules none []) true [] _ (by decide)⟩

theorem buildTreeGo_nonrecursive_flat (rules : List String) (pre : String)
    (segs : List String) (depth n : Nat) :
    ∀ (l : List FSEntry) (idx : Nat),
      buildTreeGo rules false pre segs depth n idx l =
        flatLevelLines rules pre segs n idx l := by
  intro l
  induction l with
  | nil =>
    intro idx
    rw [buildTreeGo_nil, flatLevelLines]
  | cons e rest ih =>
    intro idx
    cases e with
    | file nm isBin =>
      rw [buildTreeGo_cons_file, flatLevelLines]
      by_cases hc : ignores rules (relPathOf (segs ++ [nm])) = true
      · simp [entName, hc, ih (idx + 1)]
      · simp [entName, hc, ih (idx + 1), levelLine, entIsDir]
    | dir nm ch =>
      rw [buildTreeGo_cons_dir, flatLevelLines]
      by_cases hc : ignores rules (relPathOf (segs ++ [nm])) = true
      · simp [entName, hc, ih (idx + 1)]
      · simp [entName, hc, ih (idx + 1), levelLine, entIsDir]

theorem collectFilesRecursive_nonrecursive_flat (rules : List String) :
    ∀ (l : List FSEntry) (segs : List String),
      collectFilesRecursive rules false segs l = topLevelFiles rules segs l := by
  intro l
  induction l with
  | nil =>
    intro segs
    rw [collectFilesRecursive_nil, topLevelFiles]
  | cons e rest ih =>
    intro segs
    cases e with
    | file nm isBin =>
      rw [collectFilesRecursive_cons_file, topLevelFiles]
      split
      · simp [ih segs]
      · simp [ih segs]
    | dir nm ch =>
      rw [collectFilesRecursive_cons_dir, topLevelFiles]
      split
      · simp [ih segs]
      · simp [ih segs]

theorem collectFilesRecursive_descends (rules : List String) (segs : List String)
    (nm : String) (ch : List FSEntry) :
    ∀ l : List FSEntry, FSEntry.dir nm ch ∈ l →
      ignores rules (relPathOf (segs ++ [nm])) = false →
      (collectFilesRecursive rules true (segs ++ [nm]) ch).Sublist
        (collectFilesRecursive rules true segs l) := by
  intro l
  induction l with
  | nil =>
    intro h
    simp at h
  | cons e rest ih =>
    intro hmem hig
    rcases List.mem_cons.1 hmem with heq | hmem'
    · subst heq
      rw [collectFilesRecursive_cons_dir,
        if_neg (by simp [hig]), if_pos rfl]
      exact List.sublist_append_left _ _
    · have hsub := ih hmem' hig
      cases e with
      | file nm2 isBin2 =>
        rw [collectFilesRecursive_cons_file]
        split
        · exact hsub
        · exact hsub.trans (List.sublist_cons_self _ _)
      | dir nm2 ch2 =>
        rw [collectFilesRecursive_cons_dir]
        split
        · exact hsub
        · exact hsub.trans (List.sublist_append_right _ _)

theorem buildTreeGo_descends (rules : List String) (pre : String)
    (segs : List String) (depth n : Nat) (nm : String) (ch : List FSEntry) :
    ∀ (l : List FSEntry) (idx : Nat), FSEntry.dir nm ch ∈ l →
      ignores rules (relPathOf (segs ++ [nm])) = false →
      ∃ ext, (ext = "    " ∨ ext = "│   ") ∧
        List.IsInfix
          (buildTree rules true ch (pre ++ ext) (segs ++ [nm]) (depth + 1))
          (buildTreeGo rules true pre segs depth n idx l) := by
  intro l
  induction l with
  | nil =>
    intro idx h
    simp at h
  | cons e rest ih =>
    intro idx hmem hig
    rcases List.mem_cons.1 hmem with heq | hmem'
    · subst heq
      rw [buildTreeGo_cons_dir, if_neg (by simp [hig]), if_pos rfl]
      refine ⟨if idx == n - 1 then "    " else "│   ", ?_, ?_⟩
      · split
        · exact Or.inl rfl
        · exact Or.inr rfl
      · exact ⟨[pre ++ (if idx == n - 1 then "└── " else "├── ") ++ nm ++ "/"],
          buildTreeGo rules true pre segs depth n (idx + 1) rest, by simp⟩
    · obtain ⟨ext, hext, hinf⟩ := ih (idx + 1) hmem' hig
      refine ⟨ext, hext, ?_⟩
      cases e with
      | file nm2 isBin2 =>
        rw [buildTreeGo_cons_file]
        split
        · exact hinf
        · exact hinf.trans (List.suffix_cons _ _).isInfix
      | dir nm2 ch2 =>
        rw [buildTreeGo_cons_dir, if_pos rfl]
        split
        · exact hinf
        · exact hinf.trans
            (((List.suffix_append _ _).trans (List.suffix_cons _ _)).isInfix)

/-- C7: with the recursive flag off, the tree is exactly the flat rendering of
the root level (each non-ignored entry at depth 0 only, nothing deeper) and
the file list holds exactly the root level's non-ignored files (no
subdirectory contributes); with the flag on, every non-ignored subdirectory
is descended into: its recursive collection is a sublist of the file list and
its rendered subtree (under the extended prefix) is an infix of the tree
lines. -/
theorem recursive_flag_semantics (rules : List String) (entries : List FSEntry)
    (pre : String) (segs : List String) (depth : Nat) (nm : String)
    (ch : List FSEntry)
    (hmem : FSEntry.dir nm ch ∈ entries)
    (hig : ignores rules (relPathOf (segs ++ [nm])) = false) :
    buildTree rules false entries pre segs 0 =
      flatLevelLines rules pre segs (sortEntries entries).length 0
        (sortEntries entries) ∧
    collectFilesRecursive rules false segs entries =
      topLevelFiles rules segs entries ∧
    (collectFilesRecursive rules true (segs ++ [nm]) ch).Sublist
      (collectFilesRecursive rules true segs entries) ∧
    ∃ ext, (ext = "    " ∨ ext = "│   ") ∧
      List.IsInfix
        (buildTree rules true ch (pre ++ ext) (segs ++ [nm]) (depth + 1))
        (buildTree rules true entries pre segs depth) := by
  refine ⟨?_, ?_, ?_, ?_⟩
  · rw [buildTree_eq]
    simp only [Bool.not_false, Bool.and_true, decide_eq_true_eq]
    rw [if_neg (by omega)]
    exact buildTreeGo_nonrecursive_flat rules pre segs 0
      (sortEntries entries).length (sortEntries entries) 0
  · exact collectFilesRecursive_nonrecursive_flat rules entries segs
  · exact collectFilesRecursive_descends rules segs nm ch entries hmem hig
  · have hmem' := mem_sortEntries_of_mem hmem
    obtain ⟨ext, hext, hinf⟩ := buildTreeGo_descends rules pre segs depth
      (sortEntries entries).length nm ch (sortEntries entries) 0 hmem' hig
    refine ⟨ext, hext, ?_⟩
    have hbt : buildTree rules true entries pre segs depth =
        buildTreeGo rules true pre segs depth (sortEntries entries).length 0
          (sortEntries entries) := by
      rw [buildTree_eq]
      simp
    rw [hbt]
    exact hinf

/-- Witness for C7 at a one-directory root listing. -/
theorem recursive_flag_semantics_witness :
    FSEntry.dir "sub" [FSEntry.file "x.txt" false] ∈
      ([FSEntry.dir "sub" [FSEntry.file "x.txt" false]] : List FSEntry) ∧
    ignores (mkIgnoreRules none []) (relPathOf ([] ++ ["sub"])) = false ∧
    (buildTree (mkIgnoreRules none []) false
        [FSEntry.dir "sub" [FSEntry.file "x.txt" false]] "" [] 0 =
      flatLevelLines (mkIgnoreRules none []) "" []
        (sortEntries [FSEntry.dir "sub" [FSEntry.file "x.txt" false]]).length 0
        (sortEntries [FSEntry.dir "sub" [FSEntry.file "x.txt" false]]) ∧
    collectFilesRecursive (mkIgnoreRules none []) false []
        [FSEntry.dir "sub" [FSEntry.file "x.txt" false]] =
      topLevelFiles (mkIgnoreRules none []) []
        [FSEntry.dir "sub" [FSEntry.file "x.txt" false]] ∧
    (collectFilesRecursive (mkIgnoreRules none []) true ([] ++ ["sub"])
        [FSEntry.file "x.txt" false]).Sublist
      (collectFilesRecursive (mkIgnoreRules none []) true []
        [FSEntry.dir "sub" [FSEntry.file "x.txt" false]]) ∧
    ∃ ext, (ext = "    " ∨ ext = "│   ") ∧
      List.IsInfix
        (buildTree (mkIgnoreRules none []) true [FSEntry.file "x.txt" false]
          ("" ++ ext) ([] ++ ["sub"]) (0 + 1))
        (buildTree (mkIgnoreRules none []) true
          [FSEntry.dir "sub" [FSEntry.file "x.txt" false]] "" [] 0)) :=
  ⟨List.mem_cons_self _ _, by decide,
    recursive_flag_semantics (mkIgnoreRules none [])
      [FSEntry.dir "sub" [FSEntry.file "x.txt" false]] "" [] 0 "sub"
      [FSEntry.file "x.txt" false] (List.mem_cons_self _ _) (by decide)⟩

theorem ignores_dotGit_of_no_reinclude (later : List String)
    (hneg : ∀ p ∈ later, ∀ body : String,
      parseIgnorePattern p = some (true, body) →
      patternMatchesPath body ".git" = false) :
    ignores (".git" :: later) ".git" = true := by
  have hstep : ∀ l : List String,
      (∀ p ∈ l, ∀ body : String, parseIgnorePattern p = some (true, body) →
        patternMatchesPath body ".git" = false) →
      List.foldl (ignoreStep ".git") true l = true := by
    intro l
    induction l with
    | nil => intro _; rfl
    | cons p rest ih =>
      intro h
      rw [List.foldl_cons]
      have hone : ignoreStep ".git" true p = true := by
        rcases hparse : parseIgnorePattern p with _ | ⟨neg, body⟩
        · simp [ignoreStep, hparse]
        · cases neg
          · simp only [ignoreStep, hparse]
            split <;> rfl
          · have hm := h p (List.mem_cons_self p rest) body hparse
            simp [ignoreStep, hparse, hm]
      rw [hone]
      exact ih (fun q hq => h q (List.mem_cons_of_mem p hq))
  rw [ignores, List.foldl_cons]
  have h0 : ignoreStep ".git" false ".git" = true := by decide
  rw [h0]
  exact hstep later hneg

theorem collect_filter_dotGit (rules : List String) (recursive : Bool)
    (hg : ignores rules ".git" = true) :
    ∀ entries : List FSEntry,
      collectFilesRecursive rules recursive [] entries =
        collectFilesRecursive rules recursive []
          (entries.filter (fun e => !(entName e == ".git"))) := by
  intro entries
  induction entries with
  | nil => rfl
  | cons e rest ih =>
    by_cases he : entName e = ".git"
    · have hfe : (!(entName e == ".git")) = false := by simp [he]
      simp only [List.filter_cons, hfe, Bool.false_eq_true, if_false]
      cases e with
      | file nm b =>
        have hig : ignores rules (relPathOf ([] ++ [nm])) = true := by
          have : relPathOf ([] ++ [nm]) = ".git" := by
            simp only [List.nil_append, relPathOf]
            exact he
          rw [this]
          exact hg
        rw [collectFilesRecursive_cons_file, if_pos hig]
        exact ih
      | dir nm ch =>
        have hig : ignores rules (relPathOf ([] ++ [nm])) = true := by
          have : relPathOf ([] ++ [nm]) = ".git" := by
            simp only [List.nil_append, relPathOf]
            exact he
          rw [this]
          exact hg
        rw [collectFilesRecursive_cons_dir, if_pos hig]
        exact ih
    · have hfe : (!(entName e == ".git")) = true := by simp [he]
      simp only [List.filter_cons, hfe, if_true]
      cases e with
      | file nm b =>
        rw [collectFilesRecursive_cons_file, collectFilesRecursive_cons_file]
        by_cases hi : ignores rules (relPathOf ([] ++ [nm])) = true
        · rw [if_pos hi, if_pos hi]
          exact ih
        · rw [if_neg hi, if_neg hi, ih]
      | dir nm ch =>
        rw [collectFilesRecursive_cons_dir, collectFilesRecursive_cons_dir]
        by_cases hi : ignores rules (relPathOf ([] ++ [nm])) = true
        · rw [if_pos hi, if_pos hi]
          exact ih
        · rw [if_neg hi, if_neg hi, ih]

theorem entName_gutDotGit (e : FSEntry) : entName (gutDotGit e) = entName e := by
  cases e with
  | file nm b => rfl
  | dir nm ch =>
    rw [gutDotGit]
    split <;> rfl

theorem entIsDir_gutDotGit (e : FSEntry) : entIsDir (gutDotGit e) = entIsDir e := by
  cases e with
  | file nm b => rfl
  | dir nm ch =>
    rw [gutDotGit]
    split <;> rfl

theorem nodeLe_gutDotGit (a b : FSEntry) :
    nodeLe (gutDotGit a) (gutDotGit b) = nodeLe a b := by
  simp [nodeLe, entName_gutDotGit, entIsDir_gutDotGit]

theorem insertSorted_map_gut (x : FSEntry) (l : List FSEntry) :
    insertSorted (gutDotGit x) (l.map gutDotGit) =
      (insertSorted x l).map gutDotGit := by
  induction l with
  | nil => rfl
  | cons y ys ih =>
    simp only [List.map_cons, insertSorted, nodeLe_gutDotGit]
    split
    · simp
    · simp [ih]

theorem sortEntries_map_gut (l : List FSEntry) :
    sortEntries (l.map gutDotGit) = (sortEntries l).map gutDotGit := by
  induction l with
  | nil => rfl
  | cons x xs ih => simp only [List.map_cons, sortEntries, ih, insertSorted_map_gut]

theorem gutDotGit_eq_self {e : FSEntry} (h : ¬entName e = ".git") :
    gutDotGit e = e := by
  cases e with
  | file nm b => rfl
  | dir nm ch =>
    rw [gutDotGit, if_neg ?_]
    exact h

theorem buildTreeGo_gut (rules : List String) (recursive : Bool) (pre : String)
    (n : Nat) (hg : ignores rules ".git" = true) :
    ∀ (l : List FSEntry) (idx : Nat),
      buildTreeGo rules recursive pre [] 0 n idx (l.map gutDotGit) =
        buildTreeGo rules recursive pre [] 0 n idx l := by
  intro l
  induction l with
  | nil => intro _; rfl
  | cons e rest ih =>
    intro idx
    by_cases he : entName e = ".git"
    · cases e with
      | file nm b =>
        have hig : ignores rules (relPathOf ([] ++ [nm])) = true := by
          have : relPathOf ([] ++ [nm]) = ".git" := by
            simp only [List.nil_append, relPathOf]
            exact he
          rw [this]
          exact hg
        have hge : gutDotGit (FSEntry.file nm b) = FSEntry.file nm b := rfl
        rw [List.map_cons, hge, buildTreeGo_cons_file, buildTreeGo_cons_file,
          if_pos hig, if_pos hig]
        exact ih (idx + 1)
      | dir nm ch =>
        have hig : ignores rules (relPathOf ([] ++ [nm])) = true := by
          have : relPathOf ([] ++ [nm]) = ".git" := by
            simp only [List.nil_append, relPathOf]
            exact he
          rw [this]
          exact hg
        have hge : gutDotGit (FSEntry.dir nm ch) = FSEntry.dir nm [] := by
          rw [gutDotGit, if_pos ?_]
          exact he
        rw [List.map_cons, hge, buildTreeGo_cons_dir, buildTreeGo_cons_dir,
          if_pos hig, if_pos hig]
        exact ih (idx + 1)
    · rw [List.map_cons, gutDotGit_eq_self he]
      cases e with
      | file nm b =>
        rw [buildTreeGo_cons_file, buildTreeGo_cons_file, ih (idx + 1)]
      | dir nm ch =>
        rw [buildTreeGo_cons_dir, buildTreeGo_cons_dir, ih (idx + 1)]

theorem buildTree_gut (rules : List String) (recursive : Bool)
    (entries : List FSEntry) (hg : ignores rules ".git" = true) :
    buildTree rules recursive entries "" [] 0 =
      buildTree rules recursive (entries.map gutDotGit) "" [] 0 := by
  rw [buildTree_eq, buildTree_eq, sortEntries_map_gut]
  simp only [List.length_map]
  split
  · rfl
  · exact (buildTreeGo_gut rules recursive "" (sortEntries entries).length hg
      (sortEntries entries) 0).symm

theorem buildTree_line_shape (rules : List String) (recursive : Bool)
    (entries : List FSEntry) (pre : String) (segs : List String) (depth : Nat) :
    ∀ line ∈ buildTree rules recursive entries pre segs depth,
      (∃ e, e ∈ sortEntries entries ∧
        ¬ignores rules (relPathOf (segs ++ [entName e])) = true ∧
        ∃ b : Bool, line = pre ++ (if b then "└── " else "├── ") ++ entName e ++
          (if entIsDir e then "/" else "")) ∨
      (∃ ext s, (ext = "    " ∨ ext = "│   ") ∧ line = pre ++ (ext ++ s)) := by
  refine buildTree.induct rules recursive
    (fun entries pre segs depth =>
      ∀ line ∈ buildTree rules recursive entries pre segs depth,
        (∃ e, e ∈ sortEntries entries ∧
          ¬ignores rules (relPathOf (segs ++ [entName e])) = true ∧
          ∃ b : Bool, line = pre ++ (if b then "└── " else "├── ") ++ entName e ++
            (if entIsDir e then "/" else "")) ∨
        (∃ ext s, (ext = "    " ∨ ext = "│   ") ∧ line = pre ++ (ext ++ s)))
    (fun pre segs depth n idx l =>
      ∀ line ∈ buildTreeGo rules recursive pre segs depth n idx l,
        (∃ e, e ∈ l ∧
          ¬ignores rules (relPathOf (segs ++ [entName e])) = true ∧
          ∃ b : Bool, line = pre ++ (if b then "└── " else "├── ") ++ entName e ++
            (if entIsDir e then "/" else "")) ∨
        (∃ ext s, (ext = "    " ∨ ext = "│   ") ∧ line = pre ++ (ext ++ s)))
    ?_ ?_ ?_ ?_ ?_ ?_ ?_ entries pre segs depth
  · intro entries pre segs depth hguard line hline
    rw [buildTree_eq, if_pos hguard] at hline
    simp at hline
  · intro entries pre segs depth hguard sorted ih line hline
    rw [buildTree_eq, if_neg hguard] at hline
    exact ih line hline
  · intro pre segs depth n idx line hline
    rw [buildTreeGo_nil] at hline
    simp at hline
  · intro pre segs depth n idx y ys rp hig ih line hline
    have hline' : line ∈ buildTreeGo rules recursive pre segs depth n (idx + 1) ys := by
      cases y with
      | file nm b =>
        have hig1 : ignores rules (relPathOf (segs ++ [nm])) = true := hig
        rwa [buildTreeGo_cons_file, if_pos hig1] at hline
      | dir nm ch =>
        have hig1 : ignores rules (relPathOf (segs ++ [nm])) = true := hig
        rwa [buildTreeGo_cons_dir, if_pos hig1] at hline
    rcases ih line hline' with ⟨e, he, h1, h2⟩ | h
    · exact Or.inl ⟨e, List.mem_cons_of_mem _ he, h1, h2⟩
    · exact Or.inr h
  · intro pre segs depth n idx ys nm isBin rp hig ih line hline
    have hig1 : ¬ignores rules (relPathOf (segs ++ [nm])) = true := hig
    rw [buildTreeGo_cons_file, if_neg hig1] at hline
    rcases List.mem_cons.1 hline with heq | hmem
    · refine Or.inl ⟨FSEntry.file nm isBin, List.mem_cons_self _ _, hig, ?_⟩
      exact ⟨idx == n - 1, heq⟩
    · rcases ih line hmem with ⟨e, he, h1, h2⟩ | h
      · exact Or.inl ⟨e, List.mem_cons_of_mem _ he, h1, h2⟩
      · exact Or.inr h
  · intro pre segs depth n idx ys isLast nm children hrec rp hig ihrest ihch line hline
    have hig1 : ¬ignores rules (relPathOf (segs ++ [nm])) = true := hig
    subst hrec
    rw [buildTreeGo_cons_dir, if_neg hig1, if_pos rfl] at hline
    rcases List.mem_cons.1 hline with heq | hmem
    · refine Or.inl ⟨FSEntry.dir nm children, List.mem_cons_self _ _, hig, ?_⟩
      exact ⟨idx == n - 1, heq⟩
    · rcases List.mem_append.1 hmem with hch | hrest
      · have hsub := ihch line hch
        refine Or.inr ?_
        refine ⟨if isLast then "    " else "│   ", ?_⟩
        rcases hsub with ⟨e, _, _, b, hsh⟩ | ⟨ext2, s2, _, hsh⟩
        · refine ⟨(if b then "└── " else "├── ") ++ entName e ++
            (if entIsDir e then "/" else ""), ?_, ?_⟩
          · split
            · exact Or.inl rfl
            · exact Or.inr rfl
          · rw [hsh]
            simp [dite_eq_ite, String.append_assoc]
        · refine ⟨ext2 ++ s2, ?_, ?_⟩
          · split
            · exact Or.inl rfl
            · exact Or.inr rfl
          · rw [hsh]
            simp [dite_eq_ite, String.append_assoc]
      · rcases ihrest line hrest with ⟨e, he, h1, h2⟩ | h
        · exact Or.inl ⟨e, List.mem_cons_of_mem _ he, h1, h2⟩
        · exact Or.inr h
  · intro pre segs depth n idx ys nm children hrec rp hig ih line hline
    have hig1 : ¬ignores rules (relPathOf (segs ++ [nm])) = true := hig
    rw [buildTreeGo_cons_dir, if_neg hig1, if_neg hrec] at hline
    rcases List.mem_cons.1 hline with heq | hmem
    · refine Or.inl ⟨FSEntry.dir nm children, List.mem_cons_self _ _, hig, ?_⟩
      exact ⟨idx == n - 1, heq⟩
    · rcases ih line hmem with ⟨e, he, h1, h2⟩ | h
      · exact Or.inl ⟨e, List.mem_cons_of_mem _ he, h1, h2⟩
      · exact Or.inr h

theorem no_root_dotGit_line (rules : List String) (recursive : Bool)
    (entries : List FSEntry)
    (hg : ignores rules ".git" = true)
    (hnames : ∀ e ∈ entries, (entName e).data.contains '/' = false) :
    ∀ line ∈ buildTree rules recursive entries "" [] 0,
      line ≠ "├── .git/" ∧ line ≠ "└── .git/" := by
  have dempty : ("" : String).data = ([] : List Char) := rfl
  have dconn1 : ("├── " : String).data = ['├', '─', '─', ' '] := rfl
  have dconn2 : ("└── " : String).data = ['└', '─', '─', ' '] := rfl
  have dslash : ("/" : String).data = ['/'] := rfl
  have dt1 : ("├── .git/" : String).data =
      ['├', '─', '─', ' ', '.', 'g', 'i', 't', '/'] := rfl
  have dt2 : ("└── .git/" : String).data =
      ['└', '─', '─', ' ', '.', 'g', 'i', 't', '/'] := rfl
  have dind1 : ("    " : String).data = [' ', ' ', ' ', ' '] := rfl
  have dind2 : ("│   " : String).data = ['│', ' ', ' ', ' '] := rfl
  intro line hline
  rcases buildTree_line_shape rules recursive entries "" [] 0 line hline with
    ⟨e, hmem, hvis, b, hsh⟩ | ⟨ext, s, hext, hsh⟩
  · have hname := hnames e (mem_of_mem_sortEntries hmem)
    have hgit : ¬entName e = ".git" := by
      intro hng
      apply hvis
      show ignores rules (relPathOf ([] ++ [entName e])) = true
      have hrel : relPathOf ([] ++ [entName e]) = entName e := rfl
      rw [hrel, hng]
      exact hg
    constructor <;> intro heq <;> rw [hsh] at heq <;>
      have hd := congrArg String.data heq <;>
      cases e <;> cases b <;>
      simp only [entName, entIsDir, Bool.false_eq_true, if_false, if_true,
        eq_self_iff_true, String.data_append, dempty, dconn1, dconn2, dslash,
        dt1, dt2, List.nil_append, List.append_nil, List.cons_append]
        at hd hname hgit
    all_goals injection hd with h1 hd
    all_goals
      first
      | exact absurd h1 (by decide)
      | (injection hd with h2 hd
         injection hd with h3 hd
         injection hd with h4 hd
         first
         | (rw [hd] at hname
            exact absurd hname (by decide))
         | (rw [show (['.', 'g', 'i', 't', '/'] : List Char) =
              ['.', 'g', 'i', 't'] ++ ['/'] from rfl] at hd
            obtain ⟨hnm, -⟩ := List.append_inj' hd rfl
            exact hgit (String.ext (by rw [hnm]))))
  · constructor <;> intro heq <;> rw [hsh] at heq <;>
      have hd := congrArg String.data heq <;>
      rcases hext with rfl | rfl <;>
      simp only [String.data_append, dempty, dind1, dind2, dt1, dt2,
        List.nil_append, List.cons_append] at hd <;>
      (injection hd with h1 hd; exact absurd h1 (by decide))

/-- C3 amended: the built-in `.git` rule is added first, so `.git` at the
root is excluded from the ignore predicate, the collected file list (equal to
the collection over the listing with `.git` entries dropped), and the tree
(equal to the tree with a `.git` directory's children removed, and showing no
root-level `.git` directory line) — unless some later pattern (ignore-file or
extra) is a negation matching `.git`, which re-includes it. Scope: every
later pattern is a literal one (`litPattern`: no glob, anchoring or escape
metacharacter), the fragment of gitignore syntax the matching model is
faithful for — a glob negation such as a starred pattern is outside this
theorem; entry names are assumed slash-free, as `readdirSync` yields
them. -/
theorem dotGit_excluded_amended (gitignoreLines extraIgnores : List String)
    (entries : List FSEntry) (recursive : Bool)
    (_hlit : ∀ p ∈ gitignoreLines ++ extraIgnores, litPattern p = true)
    (hneg : ∀ p ∈ gitignoreLines ++ extraIgnores, ∀ body : String,
      parseIgnorePattern p = some (true, body) →
      patternMatchesPath body ".git" = false)
    (hnames : ∀ e ∈ entries, (entName e).data.contains '/' = false) :
    ignores (mkIgnoreRules (some gitignoreLines) extraIgnores) ".git" = true ∧
    collectFilesRecursive (mkIgnoreRules (some gitignoreLines) extraIgnores)
        recursive [] entries =
      collectFilesRecursive (mkIgnoreRules (some gitignoreLines) extraIgnores)
        recursive [] (entries.filter (fun e => !(entName e == ".git"))) ∧
    buildTree (mkIgnoreRules (some gitignoreLines) extraIgnores) recursive
        entries "" [] 0 =
      buildTree (mkIgnoreRules (some gitignoreLines) extraIgnores) recursive
        (entries.map gutDotGit) "" [] 0 ∧
    ∀ line ∈ buildTree (mkIgnoreRules (some gitignoreLines) extraIgnores)
        recursive entries "" [] 0,
      line ≠ "├── .git/" ∧ line ≠ "└── .git/" := by
  have hg : ignores (mkIgnoreRules (some gitignoreLines) extraIgnores) ".git"
      = true := by
    have hr : mkIgnoreRules (some gitignoreLines) extraIgnores =
        ".git" :: (gitignoreLines ++ extraIgnores) := rfl
    rw [hr]
    exact ignores_dotGit_of_no_reinclude _ hneg
  exact ⟨hg, collect_filter_dotGit _ recursive hg entries,
    buildTree_gut _ recursive entries hg,
    no_root_dotGit_line _ recursive entries hg hnames⟩

/-- Witness for the amended C3: literal positive patterns only, a `.git`
directory at the root next to a text file. -/
theorem dotGit_excluded_amended_witness :
    (∀ p ∈ (["node_modules"] : List String) ++ ["build.log"],
      litPattern p = true) ∧
    (∀ p ∈ (["node_modules"] : List String) ++ ["build.log"], ∀ body : String,
      parseIgnorePattern p = some (true, body) →
      patternMatchesPath body ".git" = false) ∧
    (∀ e ∈ gitTreeExample, (entName e).data.contains '/' = false) ∧
    (ignores (mkIgnoreRules (some ["node_modules"]) ["build.log"]) ".git" = true ∧
    collectFilesRecursive (mkIgnoreRules (some ["node_modules"]) ["build.log"])
        true [] gitTreeExample =
      collectFilesRecursive (mkIgnoreRules (some ["node_modules"]) ["build.log"])
        true [] (gitTreeExample.filter (fun e => !(entName e == ".git"))) ∧
    buildTree (mkIgnoreRules (some ["node_modules"]) ["build.log"]) true
        gitTreeExample "" [] 0 =
      buildTree (mkIgnoreRules (some ["node_modules"]) ["build.log"]) true
        (gitTreeExample.map gutDotGit) "" [] 0 ∧
    ∀ line ∈ buildTree (mkIgnoreRules (some ["node_modules"]) ["build.log"]) true
        gitTreeExample "" [] 0,
      line ≠ "├── .git/" ∧ line ≠ "└── .git/") := by
  have hlit : ∀ p ∈ (["node_modules"] : List String) ++ ["build.log"],
      litPattern p = true := by
    decide
  have hneg : ∀ p ∈ (["node_modules"] : List String) ++ ["build.log"],
      ∀ body : String, parseIgnorePattern p = some (true, body) →
      patternMatchesPath body ".git" = false := by
    intro p hp body hparse
    rcases List.mem_cons.1 hp with rfl | hp
    · simp [parseIgnorePattern] at hparse
    · rcases List.mem_cons.1 hp with rfl | hp
      · simp [parseIgnorePattern] at hparse
      · simp at hp
  have hnames : ∀ e ∈ gitTreeExample, (entName e).data.contains '/' = false := by
    decide
  exact ⟨hlit, hneg, hnames,
    dotGit_excluded_amended ["node_modules"] ["build.log"] gitTreeExample true
      hlit hneg hnames⟩

/-- C3 counterexample: the built-in `.git` exclusion is not immune to later
patterns: with the caller-supplied extra pattern list `["!.git"]` the later
negation re-includes the root `.git` directory, which then appears in the
tree lines and contributes its file to the collected file list. -/
theorem gitignore_reinclude_cex :
    ignores reincludeGitRules ".git" = false ∧
    (collectFiles reincludeGitRules true gitTreeExample).map
      CollectedFile.relativePath = [".git/config", "a.txt"] ∧
    getDirectoryStructure "root" reincludeGitRules true gitTreeExample =
      ["root/", "├── .git/", "│   └── config", "└── a.txt"] := by
  refine ⟨by decide, ?_, ?_⟩
  · simp only [collectFiles, collectFilesRecursive, gitTreeExample]
    decide
  · have h1 : nodeLe (.dir ".git" [.file "config" false]) (.file "a.txt" false)
        = true := by decide
    simp only [getDirectoryStructure, buildTree, gitTreeExample, sortEntries,
      insertSorted, h1, if_true, buildTreeGo]
    decide

/-- C4 counterexample: with `readdirSync` order `[b.txt, a.txt]`, the
collected file list keeps that order while the sorted tree (and the
sorted-order walk modelled from the spec) lists `a.txt` first; the file list
does not follow the sorted tree order. -/
theorem collect_order_cex :
    (collectFiles (mkIgnoreRules none []) true unsortedListing).map
      CollectedFile.relativePath = ["b.txt", "a.txt"] ∧
    getDirectoryStructure "root" (mkIgnoreRules none []) true unsortedListing =
      ["root/", "├── a.txt", "└── b.txt"] ∧
    (collectFilesSortedOrder (mkIgnoreRules none []) true [] unsortedListing).map
      CollectedFile.relativePath = ["a.txt", "b.txt"] := by
  have h1 : nodeLe (.file "b.txt" false) (.file "a.txt" false) = false := by
    decide
  refine ⟨?_, ?_, ?_⟩
  · simp only [collectFiles, collectFilesRecursive, unsortedListing]
    decide
  · simp only [getDirectoryStructure, buildTree, unsortedListing, sortEntries,
      insertSorted, h1, if_false, Bool.false_eq_true, buildTreeGo]
    decide
  · simp only [collectFilesSortedOrder, collectFilesSortedGo, unsortedListing,
      sortEntries, insertSorted, h1, if_false, Bool.false_eq_true]
    decide

/-- C8 counterexample: when the alphabetically last entry `b.txt` is ignored,
the connector index is still computed against the full sorted listing, so the
last visible entry `a.txt` keeps the non-terminal connector and no line uses
the terminal one. -/
theorem connector_ignored_last_cex :
    ignores ignoreBRules "b.txt" = true ∧
    getDirectoryStructure "root" ignoreBRules false abListing =
      ["root/", "├── a.txt"] ∧
    "└── a.txt" ∉ getDirectoryStructure "root" ignoreBRules false abListing := by
  have h1 : nodeLe (.file "a.txt" false) (.file "b.txt" false) = true := by
    decide
  have h2 : getDirectoryStructure "root" ignoreBRules false abListing =
      ["root/", "├── a.txt"] := by
    simp only [getDirectoryStructure, buildTree, abListing, sortEntries,
      insertSorted, h1, if_true, buildTreeGo]
    decide
  refine ⟨by decide, h2, ?_⟩
  rw [h2]
  decide

theorem char_toNat_ofNat_of_lt {n : Nat} (h : n < 0xD800) :
    (Char.ofNat n).toNat = n := by
  have hv : n.isValidChar := Or.inl h
  simp only [Char.ofNat, hv, dite_true, Char.ofNatAux, Char.toNat]
  rfl

/-- C9: every collected entry's type is exactly one of text, image or binary,
so the three per-kind counts over any collected file list sum to the list's
length. -/
theorem countFilesOfType_sum_eq_length (files : List CollectedFile) :
    countFilesOfType files .text + countFilesOfType files .image +
      countFilesOfType files .binary = files.length := by
  induction files with
  | nil => rfl
  | cons f rest ih =>
    cases h : f.type <;>
      simp [countFilesOfType, List.filter_cons, h] at ih ⊢ <;>
      omega

/-- C2: when the binary probe passes, the read succeeds and the decode
succeeds, the control-character screen decides the result: strictly more
than 10 percent control characters in the decoded content yields the
terminal control-characters error with empty content and the encoding label,
and at or below 10 percent the decoded content itself is returned. -/
theorem getFileContent_control_screen (f : IOFile) (buffer : List Nat)
    (decoded : String)
    (hbin : f.isBinaryFileSync = false)
    (hread : f.readFileSync = Except.ok buffer)
    (hdec : f.iconvDecode buffer (Option.getD f.chardetDetect "utf8") =
      Except.ok decoded) :
    (10 * countControlChars (stripBOM decoded) > (stripBOM decoded).length →
      getFileContent f =
        { content := ""
          error := some "File contains control characters (content not displayed)"
          encoding := some (Option.getD f.chardetDetect "utf8") })
    ∧ (10 * countControlChars (stripBOM decoded) ≤ (stripBOM decoded).length →
      getFileContent f =
        { content := stripBOM decoded
          error := none
          encoding := some (Option.getD f.chardetDetect "utf8") }) := by
  constructor
  · intro h
    simp only [getFileContent, hbin, hread, hdec, Bool.false_eq_true, if_false,
      if_pos h]
  · intro h
    simp only [getFileContent, hbin, hread, hdec, Bool.false_eq_true, if_false,
      if_neg (by omega : ¬10 * countControlChars (stripBOM decoded) >
        (stripBOM decoded).length)]

/-- Witness for C2 at a 10-character decode with 2 control characters. -/
theorem getFileContent_control_screen_witness :
    getFileContent ioFileControl =
      { content := ""
        error := some "File contains control characters (content not displayed)"
        encoding := some "utf8" } :=
  (getFileContent_control_screen ioFileControl
    [0, 0, 65, 66, 67, 68, 69, 70, 71, 72] "\x00\x00ABCDEFGH"
    rfl rfl rfl).1 (by decide)

/-- C6: a thrown read or decode error is caught: the result is the terminal
read-error record with empty content, and the builder renders it as an
inline binary-notice paragraph instead of propagating; the embedded
`getFileContent` is total, mirroring the source's enclosing try/catch. -/
theorem getFileContent_read_error_caught (f : IOFile) (msg : String)
    (hbin : f.isBinaryFileSync = false)
    (herr : f.readFileSync = Except.error msg ∨
      ∃ buffer, f.readFileSync = Except.ok buffer ∧
        f.iconvDecode buffer (Option.getD f.chardetDetect "utf8") =
          Except.error msg) :
    getFileContent f =
      { content := "", error := some ("Reading error: " ++ msg), encoding := none }
    ∧ generateTextFileHTML f =
      "<p class=\"binary-notice\">" ++ escapeHTML ("Reading error: " ++ msg) ++
        "</p>" := by
  have h1 : getFileContent f =
      { content := "", error := some ("Reading error: " ++ msg), encoding := none } := by
    rcases herr with h | ⟨buffer, hb, hd⟩
    · simp only [getFileContent, hbin, Bool.false_eq_true, if_false, h]
    · simp only [getFileContent, hbin, Bool.false_eq_true, if_false, hb, hd]
  refine ⟨h1, ?_⟩
  simp only [generateTextFileHTML, h1]

/-- Witness for C6 at a path whose read throws. -/
theorem getFileContent_read_error_caught_witness :
    getFileContent ioFileReadError =
      { content := ""
        error := some "Reading error: ENOENT: no such file or directory"
        encoding := none }
    ∧ generateTextFileHTML ioFileReadError =
      "<p class=\"binary-notice\">" ++
        escapeHTML "Reading error: ENOENT: no such file or directory" ++ "</p>" :=
  getFileContent_read_error_caught ioFileReadError
    "ENOENT: no such file or directory" rfl (Or.inl rfl)

/-- C10: an existing, readable, zero-byte text file decodes to the empty
string with the fallback encoding label `utf8` and no error, and renders as
one empty numbered line rather than an error notice. -/
theorem getFileContent_empty_file (f : IOFile)
    (hbin : f.isBinaryFileSync = false)
    (hread : f.readFileSync = Except.ok [])
    (hdet : f.chardetDetect = none)
    (hdec : f.iconvDecode [] "utf8" = Except.ok "") :
    getFileContent f = { content := "", error := none, encoding := some "utf8" }
    ∧ generateTextFileHTML f =
      "<div class=\"encoding-info\">Encoding: utf8</div><pre><span class=\"file-content-line\"><span class=\"line-number\">1</span></span>\n</pre>" := by
  have h1 : getFileContent f =
      { content := "", error := none, encoding := some "utf8" } := by
    simp only [getFileContent, hbin, Bool.false_eq_true, if_false, hread, hdet,
      Option.getD, hdec]
    decide
  refine ⟨h1, ?_⟩
  simp only [generateTextFileHTML, h1]
  decide

theorem stripBOM_asciiDecode (bytes : List Nat)
    (h : ∀ b ∈ bytes, printableAsciiOrLF b = true) :
    stripBOM (asciiDecode bytes) = asciiDecode bytes := by
  cases bytes with
  | nil => rfl
  | cons b bs =>
    have hb : printableAsciiOrLF b = true := h b (List.mem_cons_self b bs)
    have hlt : b < 0xD800 := by
      simp only [printableAsciiOrLF, Bool.or_eq_true, beq_iff_eq,
        Bool.and_eq_true, decide_eq_true_eq] at hb
      omega
    simp only [stripBOM, asciiDecode, List.map_cons, char_toNat_ofNat_of_lt hlt]
    rw [if_neg (by
      simp only [printableAsciiOrLF, Bool.or_eq_true, beq_iff_eq,
        Bool.and_eq_true, decide_eq_true_eq] at hb
      omega)]

theorem countControlChars_asciiDecode (bytes : List Nat)
    (h : ∀ b ∈ bytes, printableAsciiOrLF b = true) :
    countControlChars (asciiDecode bytes) = 0 := by
  simp only [countControlChars, asciiDecode, List.length_eq_zero]
  rw [List.filter_eq_nil_iff]
  intro c hc
  rw [List.mem_map] at hc
  obtain ⟨b, hb, rfl⟩ := hc
  have hpb := h b hb
  simp only [printableAsciiOrLF, Bool.or_eq_true, beq_iff_eq,
    Bool.and_eq_true, decide_eq_true_eq] at hpb
  have hlt : b < 0xD800 := by omega
  simp only [isControlChar, char_toNat_ofNat_of_lt hlt, Bool.or_eq_true,
    Bool.and_eq_true, decide_eq_true_eq, Bool.not_eq_true]
  omega

theorem getFileContent_ascii (f : IOFile) (bytes : List Nat)
    (hbin : f.isBinaryFileSync = false)
    (hread : f.readFileSync = Except.ok bytes)
    (hascii : ∀ b ∈ bytes, printableAsciiOrLF b = true)
    (hdec : f.iconvDecode bytes (Option.getD f.chardetDetect "utf8") =
      Except.ok (asciiDecode bytes)) :
    getFileContent f =
      { content := asciiDecode bytes
        error := none
        encoding := some (Option.getD f.chardetDetect "utf8") } := by
  simp only [getFileContent, hbin, Bool.false_eq_true, if_false, hread, hdec,
    stripBOM_asciiDecode bytes hascii, countControlChars_asciiDecode bytes hascii]
  simp

theorem renderContentLines_short (ls : List String)
    (h : ∀ line ∈ ls, line.length ≤ maxLineLength) :
    renderContentLines ls = String.join (ls.enum.map (fun p =>
      "<span class=\"file-content-line\"><span class=\"line-number\">" ++
        toString (p.1 + 1) ++ "</span>" ++ escapeHTML p.2 ++ "</span>\n")) := by
  unfold renderContentLines
  refine congrArg String.join (List.map_congr_left ?_)
  intro p hp
  have hmem : p.2 ∈ ls := by
    obtain ⟨i, x⟩ := p
    have := List.mem_enum hp
    exact this.2 ▸ ls.getElem_mem this.1
  unfold renderContentLine
  rw [if_neg (by
    have := h p.2 hmem
    omega)]

/-- C5 amended: a file whose bytes are printable ASCII (or line feeds),
decoded ASCII-transparently, with at most 500 lines, each line at most 300
characters, round-trips: the returned content is the bytes read as text and
the rendered section embeds every line whole, with no ellipsis truncation
and no omission marker. -/
theorem ascii_roundtrip_amended (f : IOFile) (bytes : List Nat)
    (hbin : f.isBinaryFileSync = false)
    (hread : f.readFileSync = Except.ok bytes)
    (hascii : ∀ b ∈ bytes, printableAsciiOrLF b = true)
    (hdec : f.iconvDecode bytes (Option.getD f.chardetDetect "utf8") =
      Except.ok (asciiDecode bytes))
    (hcap : (splitLines (asciiDecode bytes)).length ≤ maxLines)
    (hline : ∀ line ∈ splitLines (asciiDecode bytes),
      line.length ≤ maxLineLength) :
    (getFileContent f).content = asciiDecode bytes ∧
    (getFileContent f).error = none ∧
    generateTextFileHTML f =
      encodingInfoHTML (getFileContent f).encoding ++ "<pre>" ++
        String.join ((splitLines (asciiDecode bytes)).enum.map (fun p =>
          "<span class=\"file-content-line\"><span class=\"line-number\">" ++
            toString (p.1 + 1) ++ "</span>" ++ escapeHTML p.2 ++ "</span>\n")) ++
        "</pre>" := by
  have h1 := getFileContent_ascii f bytes hbin hread hascii hdec
  refine ⟨by rw [h1], by rw [h1], ?_⟩
  simp only [generateTextFileHTML, h1,
    if_neg (by omega : ¬(splitLines (asciiDecode bytes)).length > maxLines),
    renderContentLines_short _ hline]
  simp

/-- Witness for the amended C5 at a two-line ASCII file. -/
theorem ascii_roundtrip_amended_witness :
    (getFileContent ioFileAsciiSmall).content = asciiDecode [104, 105, 10, 121, 111] ∧
    (getFileContent ioFileAsciiSmall).error = none ∧
    generateTextFileHTML ioFileAsciiSmall =
      encodingInfoHTML (getFileContent ioFileAsciiSmall).encoding ++ "<pre>" ++
        String.join ((splitLines (asciiDecode [104, 105, 10, 121, 111])).enum.map (fun p =>
          "<span class=\"file-content-line\"><span class=\"line-number\">" ++
            toString (p.1 + 1) ++ "</span>" ++ escapeHTML p.2 ++ "</span>\n")) ++
        "</pre>" :=
  ascii_roundtrip_amended ioFileAsciiSmall [104, 105, 10, 121, 111]
    rfl rfl (by decide) rfl (by decide) (by decide)

/-- C5 counterexample: a pure printable ASCII file of a single 301-character
line (under the 500-line cap) does not round-trip: the content decodes whole,
but the rendered section keeps only 300 characters and appends an ellipsis
truncation marker. -/
theorem ascii_roundtrip_cex :
    (getFileContent ioFileLongLine).error = none ∧
    (getFileContent ioFileLongLine).content = String.mk (List.replicate 301 'a') ∧
    (splitLines (getFileContent ioFileLongLine).content).length = 1 ∧
    generateTextFileHTML ioFileLongLine =
      "<div class=\"encoding-info\">Encoding: ascii</div><pre><span class=\"file-content-line\"><span class=\"line-number\">1</span>" ++
        String.mk (List.replicate 300 'a') ++ "...</span>\n</pre>" :=
  ⟨by decide, by decide, by decide, by decide⟩

/-- C1: for a text-classified file that decodes without error, with n
decoded lines: when n exceeds the 500-line cap the rendered section holds
exactly the first 500 rendered lines followed by an omission marker stating
n - 500; when n is at most 500 every line is rendered and no marker is
emitted. -/
theorem generateTextFileHTML_line_cap (f : IOFile)
    (herr : (getFileContent f).error = none) :
    ((splitLines (getFileContent f).content).length > maxLines →
      generateTextFileHTML f =
        encodingInfoHTML (getFileContent f).encoding ++ "<pre>" ++
          renderContentLines ((splitLines (getFileContent f).content).take maxLines) ++
          ("\n\n... (" ++
            toString ((splitLines (getFileContent f).content).length - maxLines) ++
            " more lines)") ++ "</pre>")
    ∧ ((splitLines (getFileContent f).content).length ≤ maxLines →
      generateTextFileHTML f =
        encodingInfoHTML (getFileContent f).encoding ++ "<pre>" ++
          renderContentLines (splitLines (getFileContent f).content) ++ "</pre>") := by
  constructor
  · intro h
    simp only [generateTextFileHTML, herr, if_pos h]
  · intro h
    simp only [generateTextFileHTML, herr,
      if_neg (by omega : ¬(splitLines (getFileContent f).content).length > maxLines)]
    simp

/-- Witness for C1 at a file of 501 decoded lines. -/
theorem generateTextFileHTML_line_cap_witness :
    (getFileContent ioFile501).error = none ∧
    (splitLines (getFileContent ioFile501).content).length > maxLines ∧
    generateTextFileHTML ioFile501 =
      encodingInfoHTML (getFileContent ioFile501).encoding ++ "<pre>" ++
        renderContentLines ((splitLines (getFileContent ioFile501).content).take maxLines) ++
        ("\n\n... (" ++
          toString ((splitLines (getFileContent ioFile501).content).length - maxLines) ++
          " more lines)") ++ "</pre>" :=
  ⟨by decide, by decide,
    (generateTextFileHTML_line_cap ioFile501 (by decide)).1 (by decide)⟩

/-- Witness for C10 at the concrete empty-file reads. -/
theorem getFileContent_empty_file_witness :
    getFileContent ioFileEmpty =
      { content := "", error := none, encoding := some "utf8" }
    ∧ generateTextFileHTML ioFileEmpty =
      "<div class=\"encoding-info\">Encoding: utf8</div><pre><span class=\"file-content-line\"><span class=\"line-number\">1</span></span>\n</pre>" :=
  getFileContent_empty_file ioFileEmpty rfl rfl rfl rfl

end Capto

